import Mathlib

/-!
Verification development for the DocumentAnalyzer repository.

Shallow embedding of the core algorithms:
* `src/main.py` — `DocumentAnalyzer.analyze_multi_page` (image compositor),
  `safe_json_loads` (response parser), `call_ollama_with_retry` (retry-wrapped
  model invoker);
* `src/embedding.py` — `VectorIndex` (`add_texts`, `search`, `save`, `load`).

External collaborators (the sentence-transformer embedding model, `json.loads`,
`ollama.chat`, the faiss flat inner-product index) are modelled as explicit
parameters or as faithful functional models of the library behaviour the code
relies on; machine floats are modelled as rationals.
-/

namespace DocAnalyzer

/-! ## Image compositor (`DocumentAnalyzer.analyze_multi_page`, src/main.py) -/

/-- A page image: all the compositor reads from a PIL image is its width and
height. -/
structure PageImg where
  width : Nat
  height : Nat
deriving Repr, DecidableEq

/-- An output block, as recorded in `self.output`: the 1-based identifier `idx`
used in the filename `merged_image_<idx>.jpg`, and the list of pages pasted
into it, each paired with the pasted image's height (`pages_in_block` keeps the
ordinals; the paste at vertical offset `y` consumes exactly `height` rows, so
the pair records what the canvas received). -/
structure Block where
  idx : Nat
  pages : List (Nat × Nat)
deriving Repr, DecidableEq

/-- The page loop of `analyze_multi_page` (src/main.py lines 187–210).
State mirrors the Python locals: `y` (cumulative pasted height in the current
canvas), `idx` (next block identifier), `cur` (= `pages_in_block`), `acc`
(blocks already sealed/saved).  Input is the enumerated list of
`(page ordinal, page height)` pairs, ordinals starting at 1.
A block is sealed when `y + h > max_height and pages_in_block`; at
end-of-sequence a non-empty current block is sealed. -/
def packGo (maxHeight : Nat) :
    List (Nat × Nat) → Nat → Nat → List (Nat × Nat) → List Block → List Block
  | [], _, idx, cur, acc =>
      if cur = [] then acc else acc ++ [⟨idx, cur⟩]
  | (p, h) :: rest, y, idx, cur, acc =>
      if maxHeight < y + h ∧ cur ≠ [] then
        packGo maxHeight rest h (idx + 1) [(p, h)] (acc ++ [⟨idx, cur⟩])
      else
        packGo maxHeight rest (y + h) idx (cur ++ [(p, h)]) acc

/-- The blocks produced by `analyze_multi_page` for a given page list:
the loop starting from `y = 0`, `idx = 1`, empty `pages_in_block`. -/
def packBlocks (maxHeight : Nat) (imgs : List PageImg) : List Block :=
  packGo maxHeight
    ((List.range' 1 imgs.length).zip (imgs.map PageImg.height)) 0 1 [] []

/-- Function `analyze_multi_page` itself (src/main.py lines 171–212), projected onto the
block-to-pages mapping it records.  Before the loop it computes
`max_width = max(img.width for img in self.images)`: on an empty image list
Python's `max` raises `ValueError`, which we model as an error result. -/
def analyze_multi_page (maxHeight : Nat) (imgs : List PageImg) :
    Except String (List Block) :=
  if imgs.map PageImg.width = [] then
    .error "ValueError: max() arg is an empty sequence"
  else
    .ok (packBlocks maxHeight imgs)

/-- The accumulator of `packGo` is a prefix of the result. -/
theorem packGo_acc (maxHeight : Nat) :
    ∀ (input : List (Nat × Nat)) (y idx : Nat) (cur : List (Nat × Nat))
      (acc : List Block),
      packGo maxHeight input y idx cur acc =
        acc ++ packGo maxHeight input y idx cur []
  | [], y, idx, cur, acc => by
      by_cases h : cur = [] <;> simp [packGo, h]
  | (p, h) :: rest, y, idx, cur, acc => by
      by_cases hc : maxHeight < y + h ∧ cur ≠ []
      · rw [packGo, if_pos hc, packGo, if_pos hc,
          packGo_acc maxHeight rest h (idx + 1) [(p, h)] (acc ++ [Block.mk idx cur]),
          packGo_acc maxHeight rest h (idx + 1) [(p, h)] ([] ++ [Block.mk idx cur])]
        simp
      · rw [packGo, if_neg hc, packGo, if_neg hc]
        exact packGo_acc maxHeight rest (y + h) idx (cur ++ [(p, h)]) acc

/-- The page ordinals collected by `packGo`, flattened across blocks, are the
ordinals already in `acc`, then those of the current block, then the ordinals
of the remaining input, in order. -/
theorem packGo_pages (maxHeight : Nat) :
    ∀ (input : List (Nat × Nat)) (y idx : Nat) (cur : List (Nat × Nat))
      (acc : List Block),
      ((packGo maxHeight input y idx cur acc).map
          (fun b => b.pages.map Prod.fst)).flatten =
        (acc.map (fun b => b.pages.map Prod.fst)).flatten ++
          cur.map Prod.fst ++ input.map Prod.fst
  | [], y, idx, cur, acc => by
      by_cases h : cur = [] <;> simp [packGo, h]
  | (p, h) :: rest, y, idx, cur, acc => by
      by_cases hc : maxHeight < y + h ∧ cur ≠ []
      · rw [packGo, if_pos hc,
          packGo_pages maxHeight rest h (idx + 1) [(p, h)] (acc ++ [Block.mk idx cur])]
        simp
      · rw [packGo, if_neg hc,
          packGo_pages maxHeight rest (y + h) idx (cur ++ [(p, h)]) acc]
        simp

/-- Starting from an empty accumulator, block identifiers come out consecutive
from the running `idx` counter. -/
theorem packGo_ids (maxHeight : Nat) :
    ∀ (input : List (Nat × Nat)) (y idx : Nat) (cur : List (Nat × Nat)),
      (packGo maxHeight input y idx cur []).map Block.idx =
        List.range' idx (packGo maxHeight input y idx cur []).length
  | [], y, idx, cur => by
      by_cases h : cur = [] <;> simp [packGo, h]
  | (p, h) :: rest, y, idx, cur => by
      by_cases hc : maxHeight < y + h ∧ cur ≠ []
      · rw [packGo, if_pos hc,
          packGo_acc maxHeight rest h (idx + 1) [(p, h)] ([] ++ [Block.mk idx cur])]
        simp [packGo_ids maxHeight rest h (idx + 1) [(p, h)], List.range'_succ]
      · rw [packGo, if_neg hc]
        exact packGo_ids maxHeight rest (y + h) idx (cur ++ [(p, h)])

/-- Height invariant of the packing loop: if `y` is the cumulative height of
the current block, multi-page current content fits the budget, and every
sealed multi-page block fits the budget, then every multi-page block of the
result fits the budget. -/
theorem packGo_heights (maxHeight : Nat) :
    ∀ (input : List (Nat × Nat)) (y idx : Nat) (cur : List (Nat × Nat))
      (acc : List Block),
      y = (cur.map Prod.snd).sum →
      (1 < cur.length → y ≤ maxHeight) →
      (∀ b ∈ acc, 1 < b.pages.length → (b.pages.map Prod.snd).sum ≤ maxHeight) →
      ∀ b ∈ packGo maxHeight input y idx cur acc,
        1 < b.pages.length → (b.pages.map Prod.snd).sum ≤ maxHeight
  | [], y, idx, cur, acc => by
      intro hy hcur hacc b hb
      by_cases h : cur = []
      · rw [packGo, if_pos h] at hb
        exact hacc b hb
      · rw [packGo, if_neg h] at hb
        rcases List.mem_append.1 hb with hb | hb
        · exact hacc b hb
        · simp only [List.mem_singleton] at hb
          subst hb
          intro hlen
          simpa [← hy] using hcur hlen
  | (p, h) :: rest, y, idx, cur, acc => by
      intro hy hcur hacc b hb
      by_cases hc : maxHeight < y + h ∧ cur ≠ []
      · rw [packGo, if_pos hc] at hb
        refine packGo_heights maxHeight rest h (idx + 1) [(p, h)]
          (acc ++ [Block.mk idx cur]) (by simp) (by simp) ?_ b hb
        intro b' hb'
        rcases List.mem_append.1 hb' with hb' | hb'
        · exact hacc b' hb'
        · simp only [List.mem_singleton] at hb'
          subst hb'
          intro hlen
          simpa [← hy] using hcur hlen
      · rw [packGo, if_neg hc] at hb
        refine packGo_heights maxHeight rest (y + h) idx (cur ++ [(p, h)])
          acc (by simp [hy]) ?_ hacc b hb
        intro hlen
        have hne : cur ≠ [] := by
          intro hnil
          simp [hnil] at hlen
        have : ¬ maxHeight < y + h := fun hlt => hc ⟨hlt, hne⟩
        omega

/-- C1: for a non-empty input, the block-to-pages mapping of
`analyze_multi_page` is total and non-overlapping — the concatenation of the
per-block page lists is exactly the 1-based ordinals `1, …, n` in input
order — and block identifiers are `1, …, #blocks` in creation order. -/
theorem analyze_multi_page_coverage (maxHeight : Nat) (imgs : List PageImg)
    (hne : imgs ≠ []) :
    ∃ blocks, analyze_multi_page maxHeight imgs = .ok blocks ∧
      ((blocks.map (fun b => b.pages.map Prod.fst)).flatten =
        List.range' 1 imgs.length) ∧
      blocks.map Block.idx = List.range' 1 blocks.length := by
  refine ⟨packBlocks maxHeight imgs, ?_, ?_, ?_⟩
  · rw [analyze_multi_page, if_neg (by simpa using hne)]
  · rw [packBlocks, packGo_pages]
    simp [List.map_fst_zip]
  · rw [packBlocks]
    exact packGo_ids maxHeight _ 0 1 []

/-- Witness for `analyze_multi_page_coverage` at a concrete two-page input
with max height 10. -/
theorem analyze_multi_page_coverage_witness :
    ([⟨10, 5⟩, ⟨8, 7⟩] : List PageImg) ≠ [] ∧
      ∃ blocks, analyze_multi_page 10 [⟨10, 5⟩, ⟨8, 7⟩] = .ok blocks ∧
        ((blocks.map (fun b => b.pages.map Prod.fst)).flatten =
          List.range' 1 ([⟨10, 5⟩, ⟨8, 7⟩] : List PageImg).length) ∧
        blocks.map Block.idx = List.range' 1 blocks.length :=
  ⟨by decide, analyze_multi_page_coverage 10 [⟨10, 5⟩, ⟨8, 7⟩] (by decide)⟩

/-- C2: every output block of `analyze_multi_page` containing more than one
page has cumulative pasted height at most the configured maximum, and a page
whose height alone exceeds the maximum occupies its block alone. -/
theorem analyze_multi_page_height_bound (maxHeight : Nat) (imgs : List PageImg)
    (blocks : List Block)
    (hok : analyze_multi_page maxHeight imgs = .ok blocks) :
    ∀ b ∈ blocks,
      (1 < b.pages.length → (b.pages.map Prod.snd).sum ≤ maxHeight) ∧
      (∀ ph ∈ b.pages, maxHeight < ph.2 → b.pages.length = 1) := by
  have hblocks : blocks = packBlocks maxHeight imgs := by
    by_cases hne : imgs.map PageImg.width = []
    · rw [analyze_multi_page, if_pos hne] at hok
      cases hok
    · rw [analyze_multi_page, if_neg hne] at hok
      cases hok
      rfl
  subst hblocks
  intro b hb
  have hbound := packGo_heights maxHeight
    ((List.range' 1 imgs.length).zip (imgs.map PageImg.height)) 0 1 [] []
    (by simp) (by simp) (by simp) b hb
  refine ⟨hbound, ?_⟩
  intro ph hph hover
  by_contra hne1
  have hpos : 0 < b.pages.length := List.length_pos.2 (by
    intro hnil
    rw [hnil] at hph
    exact absurd hph (List.not_mem_nil ph))
  have hgt : 1 < b.pages.length := by omega
  have hsum : (b.pages.map Prod.snd).sum ≤ maxHeight := hbound hgt
  have hmem : ph.2 ∈ b.pages.map Prod.snd := List.mem_map_of_mem Prod.snd hph
  have hle : ph.2 ≤ (b.pages.map Prod.snd).sum :=
    List.single_le_sum (fun x _ => Nat.zero_le x) ph.2 hmem
  omega

/-- Witness for `analyze_multi_page_height_bound`: max height 10, pages of
heights 5, 7 and an oversized 25. -/
theorem analyze_multi_page_height_bound_witness :
    analyze_multi_page 10 [⟨10, 5⟩, ⟨8, 7⟩, ⟨9, 25⟩] =
      .ok [⟨1, [(1, 5)]⟩, ⟨2, [(2, 7)]⟩, ⟨3, [(3, 25)]⟩] ∧
      ∀ b ∈ ([⟨1, [(1, 5)]⟩, ⟨2, [(2, 7)]⟩, ⟨3, [(3, 25)]⟩] : List Block),
        (1 < b.pages.length → (b.pages.map Prod.snd).sum ≤ 10) ∧
        (∀ ph ∈ b.pages, 10 < ph.2 → b.pages.length = 1) :=
  ⟨by rfl,
   analyze_multi_page_height_bound 10 [⟨10, 5⟩, ⟨8, 7⟩, ⟨9, 25⟩] _ (by rfl)⟩

/-- C10: on an empty page-image list, `analyze_multi_page` does not produce
zero blocks and return normally — it crashes at
`max_width = max(img.width for img in self.images)` (Python `max` of an empty
sequence raises `ValueError`) before the packing loop runs. -/
theorem analyze_multi_page_empty_crashes (maxHeight : Nat) :
    analyze_multi_page maxHeight [] =
      .error "ValueError: max() arg is an empty sequence" := by
  rfl

/-! ## Retry-wrapped model invoker (`call_ollama_with_retry`, src/main.py) -/

/-- Constant `RETRIES = 3` (src/main.py line 25). -/
def RETRIES : Nat := 3

/-- Constant `RETRY_BASE_DELAY = 1.5` (src/main.py line 26), as a rational. -/
def RETRY_BASE_DELAY : ℚ := 3 / 2

/-- The trace of one `call_ollama_with_retry` invocation: the value returned
(or the exception raised after the loop), the number of `ollama.chat` attempts
made, and the arguments of the `time.sleep` calls in order. -/
structure RetryTrace where
  result : Except String String
  attemptsMade : Nat
  sleeps : List ℚ
deriving Repr

/-- The `for attempt in range(1, RETRIES + 1)` loop of
`call_ollama_with_retry` (src/main.py lines 123–131).  `chat` is the external
`ollama.chat` collaborator, indexed by attempt number: `.ok` models a normal
return, `.error` a raised exception.  On exception the code computes
`wait = RETRY_BASE_DELAY * (2 ** (attempt - 1))` and sleeps, also after the
final attempt; when the loop exhausts, `RuntimeError` is raised. -/
def retryFrom (chat : Nat → Except String String) :
    Nat → Nat → List ℚ → RetryTrace
  | 0, made, sleeps =>
      ⟨.error "RuntimeError: Chiamata a Ollama fallita dopo i retry", made, sleeps⟩
  | n + 1, made, sleeps =>
      let attempt := made + 1
      match chat attempt with
      | .ok content => ⟨.ok content, attempt, sleeps⟩
      | .error _ =>
          retryFrom chat n attempt
            (sleeps ++ [RETRY_BASE_DELAY * 2 ^ (attempt - 1)])

/-- Function `call_ollama_with_retry` (src/main.py lines 112–131), as the trace of its
attempt/sleep behaviour. -/
def call_ollama_with_retry (chat : Nat → Except String String) : RetryTrace :=
  retryFrom chat RETRIES 0 []

/-- C4: if every `ollama.chat` call raises, `call_ollama_with_retry` makes
exactly `RETRIES = 3` attempts, the sleeps are
`base · 2^(attempt−1)`, i.e. 1.5 s between attempts 1 and 2 and 3.0 s between
attempts 2 and 3 (the code also sleeps 6.0 s after the final failed attempt),
and the call surfaces a terminal `RuntimeError` rather than returning
normally. -/
theorem call_ollama_with_retry_all_fail (chat : Nat → Except String String)
    (hfail : ∀ a, ∃ e, chat a = .error e) :
    (call_ollama_with_retry chat).attemptsMade = 3 ∧
    (call_ollama_with_retry chat).sleeps = [3 / 2, 3, 6] ∧
    (call_ollama_with_retry chat).result =
      .error "RuntimeError: Chiamata a Ollama fallita dopo i retry" := by
  obtain ⟨e1, h1⟩ := hfail 1
  obtain ⟨e2, h2⟩ := hfail 2
  obtain ⟨e3, h3⟩ := hfail 3
  simp only [call_ollama_with_retry, RETRIES, retryFrom, h1, h2, h3,
    RETRY_BASE_DELAY]
  norm_num

/-- Witness for `call_ollama_with_retry_all_fail` with a collaborator that
always raises. -/
theorem call_ollama_with_retry_all_fail_witness :
    (∀ a : Nat, ∃ e, (fun _ : Nat => (.error "connection refused" :
        Except String String)) a = .error e) ∧
    ((call_ollama_with_retry fun _ => .error "connection refused").attemptsMade
        = 3 ∧
      (call_ollama_with_retry
          fun _ => .error "connection refused").sleeps = [3 / 2, 3, 6] ∧
      (call_ollama_with_retry fun _ => .error "connection refused").result =
        .error "RuntimeError: Chiamata a Ollama fallita dopo i retry") :=
  ⟨fun _ => ⟨"connection refused", rfl⟩,
   call_ollama_with_retry_all_fail (fun _ => .error "connection refused")
     (fun _ => ⟨"connection refused", rfl⟩)⟩

/-! ## Response parser (`safe_json_loads`, src/main.py)

Python strings are embedded as `List Char`, with structurally recursive
translations of the `str` methods the function uses (`strip`, `replace`,
slicing, prefix/suffix tests), so that everything evaluates in the kernel.
JSON objects are association lists `List (String × V)` with Python-dict
lookup semantics (`List.lookup`: first binding wins); `json.loads` is the
external collaborator, passed in as a function returning `none` when parsing
fails.  (A parse that yields a non-object makes the subsequent `| extra`
merge raise `TypeError`, caught by the same `except`, so it behaves exactly
like a failed parse and is also modelled by `none`.) -/

/-- A Python `str` as its character sequence. -/
abbrev PyStr := List Char

/-- Python `str.strip()`: drop leading and trailing whitespace. -/
def pyStrip (s : PyStr) : PyStr :=
  ((s.dropWhile Char.isWhitespace).reverse.dropWhile Char.isWhitespace).reverse

/-- Recursion core of `pyReplace`; the fuel starts at the string length and
dominates the number of steps, making the recursion structural. -/
def pyReplaceGo (pat rep : PyStr) : Nat → PyStr → PyStr
  | 0, s => s
  | _ + 1, [] => []
  | fuel + 1, c :: rest =>
      if pat ≠ [] ∧ pat.isPrefixOf (c :: rest) then
        rep ++ pyReplaceGo pat rep fuel ((c :: rest).drop pat.length)
      else
        c :: pyReplaceGo pat rep fuel rest

/-- Python `s.replace(pat, rep)` for a non-empty pattern: replace all
non-overlapping occurrences, left to right. -/
def pyReplace (s pat rep : PyStr) : PyStr :=
  pyReplaceGo pat rep s.length s

/-- The code-fence marker `"` followed by three backticks, `"```"`. -/
def fenceMarker : PyStr := "```".toList

/-- The fenced-JSON opener `"```json"`. -/
def fenceJson : PyStr := "```json".toList

/-- The cleaning prelude of `safe_json_loads` (src/main.py lines 58–60):
`cleaned = s.strip().replace("```json", "```").strip()`, then if `cleaned`
starts and ends with the fence marker, `cleaned = cleaned[3:-3].strip()`. -/
def cleanFences (s : PyStr) : PyStr :=
  let cleaned := pyStrip (pyReplace (pyStrip s) fenceJson fenceMarker)
  if fenceMarker.isPrefixOf cleaned ∧ fenceMarker.isSuffixOf cleaned then
    pyStrip (let d := cleaned.drop 3; d.take (d.length - 3))
  else cleaned

/-- Model of `re.search(r"\x7b.*\x7d", cleaned, flags=re.DOTALL)`: with a greedy `.*`
that may cross newlines, the match — when it exists — runs from the first
`'{'` to the last `'}'`, and exists exactly when the last `'}'` lies after
the first `'{'`. -/
def braceSubstring (s : PyStr) : Option PyStr :=
  match s.findIdx? (· == '{'), s.reverse.findIdx? (· == '}') with
  | some i, some rj =>
      let j := s.length - 1 - rj
      if i < j then some ((s.drop i).take (j - i + 1)) else none
  | _, _ => none

/-- Python `parsed | extra` on dicts: the keys of `parsed` first, in order,
each mapped to `extra`'s value when `extra` also has the key, followed by the
keys only `extra` has, in order.  The right operand's values win. -/
def dictUnion {V : Type} (a b : List (String × V)) : List (String × V) :=
  a.map (fun p => (p.1, (b.lookup p.1).getD p.2)) ++
    b.filter (fun p => (a.lookup p.1).isNone)

/-- Function `safe_json_loads` (src/main.py lines 57–70): clean fences, try a direct
parse, fall back to the brace-delimited substring, merge `extra` over the
parsed object with `|`, and return `none` (Python `None`) when both parses
fail. -/
def safe_json_loads {V : Type} (jsonLoads : PyStr → Option (List (String × V)))
    (s : PyStr) (extra : List (String × V)) : Option (List (String × V)) :=
  let cleaned := cleanFences s
  match jsonLoads cleaned with
  | some obj => some (dictUnion obj extra)
  | none =>
      match braceSubstring cleaned with
      | none => none
      | some sub =>
          match jsonLoads sub with
          | some obj => some (dictUnion obj extra)
          | none => none

/-- Looking a key up in the overridden copy of `a` inside `dictUnion`, when
the key is bound in `a`. -/
theorem lookup_map_override {V : Type} (b : List (String × V)) :
    ∀ (a : List (String × V)) (k : String) (v : V),
      a.lookup k = some v →
      (a.map fun p => (p.1, (b.lookup p.1).getD p.2)).lookup k =
        some ((b.lookup k).getD v)
  | [], k, v => by simp [List.lookup]
  | p :: t, k, v => by
      intro h
      by_cases hk : k == p.1
      · have hk' : k = p.1 := eq_of_beq hk
        rw [List.lookup_cons] at h
        simp only [hk, cond_true, Option.some.injEq] at h
        simp [List.lookup_cons, hk, ← h, hk']
      · rw [List.lookup_cons] at h
        simp only [hk, cond_false] at h
        simp [List.lookup_cons, hk, lookup_map_override b t k v h]

/-- Looking a key up in the overridden copy of `a`, when the key is unbound
in `a`. -/
theorem lookup_map_override_none {V : Type} (b : List (String × V)) :
    ∀ (a : List (String × V)) (k : String),
      a.lookup k = none →
      (a.map fun p => (p.1, (b.lookup p.1).getD p.2)).lookup k = none
  | [], k => by simp [List.lookup]
  | p :: t, k => by
      intro h
      by_cases hk : k == p.1
      · rw [List.lookup_cons] at h
        simp [hk] at h
      · rw [List.lookup_cons] at h
        simp only [hk, cond_false] at h
        simp [List.lookup_cons, hk, lookup_map_override_none b t k h]

/-- Filtering out of `b` the keys bound in `a` does not change lookups of
keys unbound in `a`. -/
theorem lookup_filter_unbound {V : Type} (a : List (String × V)) (k : String)
    (hka : a.lookup k = none) :
    ∀ l : List (String × V),
      (l.filter fun p => (a.lookup p.1).isNone).lookup k = l.lookup k
  | [] => rfl
  | (k', v') :: t => by
      by_cases hk : k == k'
      · have hk' : k = k' := eq_of_beq hk
        have hpred : (a.lookup k').isNone = true := by
          rw [← hk', hka]
          rfl
        simp [List.filter_cons, hpred, List.lookup_cons, hk]
      · cases hpred : (a.lookup k').isNone
        · simp [List.filter_cons, hpred, List.lookup_cons, hk,
            lookup_filter_unbound a k hka t]
        · simp [List.filter_cons, hpred, List.lookup_cons, hk,
            lookup_filter_unbound a k hka t]

/-- Lookup semantics of Python's `parsed | extra`: the right operand wins,
the left operand's binding survives only where the right operand is
unbound. -/
theorem lookup_dictUnion {V : Type} (a b : List (String × V)) (k : String) :
    (dictUnion a b).lookup k = (b.lookup k).or (a.lookup k) := by
  rw [dictUnion, List.lookup_append]
  cases hka : a.lookup k with
  | some v =>
      rw [lookup_map_override b a k v hka]
      cases hkb : b.lookup k <;> simp
  | none =>
      rw [lookup_map_override_none b a k hka, lookup_filter_unbound a k hka b]
      cases hkb : b.lookup k <;> simp

/-- C3 (amended): whenever `safe_json_loads` succeeds, its result is the
parsed object (obtained by direct parse of the cleaned text, or else by
parsing the brace-delimited substring) merged with `extra` by Python's
`parsed | extra` — so the `extra` mapping's value wins for every key `extra`
contains, and the parsed content's value survives only for keys missing from
`extra`. -/
theorem safe_json_loads_merge {V : Type}
    (jsonLoads : PyStr → Option (List (String × V)))
    (s : PyStr) (extra r : List (String × V))
    (hr : safe_json_loads jsonLoads s extra = some r) :
    ∃ p, (jsonLoads (cleanFences s) = some p ∨
          (jsonLoads (cleanFences s) = none ∧
            ∃ sub, braceSubstring (cleanFences s) = some sub ∧
              jsonLoads sub = some p)) ∧
      r = dictUnion p extra ∧
      ∀ k, r.lookup k = (extra.lookup k).or (p.lookup k) := by
  simp only [safe_json_loads] at hr
  split at hr
  · next obj h1 =>
      have hr' : r = dictUnion obj extra := (Option.some.injEq _ _ ▸ hr).symm
      exact ⟨obj, Or.inl h1, hr', fun k => by rw [hr', lookup_dictUnion]⟩
  · next h1 =>
      split at hr
      · next h2 => cases hr
      · next sub h2 =>
          split at hr
          · next obj h3 =>
              have hr' : r = dictUnion obj extra :=
                (Option.some.injEq _ _ ▸ hr).symm
              exact ⟨obj, Or.inr ⟨h1, sub, h2, h3⟩, hr', fun k => by
                rw [hr', lookup_dictUnion]⟩
          · next h3 => cases hr

/-- C3 counterexample: on the raw text `{"a": 1}` with extra mapping
`{"a": 2}`, the direct parse yields the object `{"a": 1}`, yet
`safe_json_loads` returns `{"a": 2}` — the parsed content's value for `"a"`
is overwritten by the extra mapping, because Python's `parsed | extra` lets
the right operand win. -/
theorem safe_json_loads_extra_wins_counterexample :
    (fun t => if t = "\x7b\"a\": 1\x7d".toList
        then some [("a", (1 : Int))] else none)
        (cleanFences "\x7b\"a\": 1\x7d".toList) = some [("a", 1)] ∧
    safe_json_loads
        (fun t => if t = "\x7b\"a\": 1\x7d".toList
          then some [("a", (1 : Int))] else none)
        "\x7b\"a\": 1\x7d".toList [("a", 2)] = some [("a", 2)] := by
  exact ⟨by decide, by decide⟩

/-- Witness for `safe_json_loads_merge` at the concrete input of the
counterexample. -/
theorem safe_json_loads_merge_witness :
    safe_json_loads
        (fun t => if t = "\x7b\"a\": 1\x7d".toList
          then some [("a", (1 : Int))] else none)
        "\x7b\"a\": 1\x7d".toList [("a", 2)] = some [("a", 2)] ∧
    ∃ p, ((fun t => if t = "\x7b\"a\": 1\x7d".toList
            then some [("a", (1 : Int))] else none)
              (cleanFences "\x7b\"a\": 1\x7d".toList) = some p ∨
          ((fun t => if t = "\x7b\"a\": 1\x7d".toList
            then some [("a", (1 : Int))] else none)
              (cleanFences "\x7b\"a\": 1\x7d".toList) = none ∧
            ∃ sub, braceSubstring (cleanFences "\x7b\"a\": 1\x7d".toList) =
                some sub ∧
              (fun t => if t = "\x7b\"a\": 1\x7d".toList
                then some [("a", (1 : Int))] else none) sub = some p)) ∧
      [("a", (2 : Int))] = dictUnion p [("a", 2)] ∧
      ∀ k, ([("a", (2 : Int))] : List (String × Int)).lookup k =
        (([("a", (2 : Int))] : List (String × Int)).lookup k).or (p.lookup k) :=
  ⟨by decide,
   safe_json_loads_merge
     (fun t => if t = "\x7b\"a\": 1\x7d".toList
       then some [("a", (1 : Int))] else none)
     "\x7b\"a\": 1\x7d".toList [("a", 2)] [("a", 2)] (by decide)⟩

/-! ## Vector index (`VectorIndex`, src/embedding.py)

The sentence-transformer collaborator is a function `String → List ℚ`
(`self.model`, fixed at construction; it returns one fixed-dimension
normalized vector per text — floats are embedded as rationals).  The faiss
`IndexFlatIP` is its dimension plus the stored vectors in insertion order;
`None` (before the first `add_texts` or `load`) is `Option.none`.  Errors
raised by the Python code are `Except.error`. -/

/-- A faiss `IndexFlatIP`: construction dimension and stored rows. -/
structure FaissIndex where
  dim : Nat
  vectors : List (List ℚ)
deriving Repr, DecidableEq

/-- The `VectorIndex` object: `self.model`, `self.index` (`None` until
first use), `self.meta`.  `α` is the metadata type. -/
structure VectorIndex (α : Type) where
  model : String → List ℚ
  index : Option FaissIndex
  meta : List α

/-- Method `VectorIndex.add_texts` (src/embedding.py lines 14–20): encode the texts,
lazily allocate the index at the embedding dimension, append the embeddings,
extend the metadata.  On an empty `texts` batch the call raises before any
mutation (`emb.shape[1]` on a 0-row array when the index is `None`, or the
faiss `add` shape check otherwise), so the state is unchanged; there is no
check that `texts` and `metadatas` have equal lengths. -/
def VectorIndex.add_texts {α : Type} (vi : VectorIndex α) (texts : List String)
    (metadatas : List α) : Except String (VectorIndex α) :=
  let emb := texts.map vi.model
  if texts.isEmpty then
    .error "IndexError: tuple index out of range"
  else
    let ix :=
      match vi.index with
      | none => FaissIndex.mk emb.headI.length []
      | some ix0 => ix0
    .ok { vi with
            index := some { ix with vectors := ix.vectors ++ emb },
            meta := vi.meta ++ metadatas }

/-- Property `index.ntotal`: the number of stored vectors (0 while `self.index` is
still `None`). -/
def VectorIndex.ntotal {α : Type} (vi : VectorIndex α) : Nat :=
  match vi.index with
  | none => 0
  | some ix => ix.vectors.length

/-- A sequence of `add_texts` calls, as the orchestration performs them:
each call either succeeds and threads the new state, or raises — the raised
exception aborts the sequence and the failed call has mutated nothing. -/
def runAdds {α : Type} (vi : VectorIndex α) :
    List (List String × List α) → VectorIndex α
  | [] => vi
  | c :: rest =>
      match vi.add_texts c.1 c.2 with
      | .ok vi' => runAdds vi' rest
      | .error _ => vi

/-- A successful `add_texts` appends `texts.length` vectors and
`metadatas.length` metadata entries. -/
theorem add_texts_counts {α : Type} (vi : VectorIndex α)
    (texts : List String) (metadatas : List α) (vi' : VectorIndex α)
    (h : vi.add_texts texts metadatas = .ok vi') :
    vi'.ntotal = vi.ntotal + texts.length ∧
    vi'.meta.length = vi.meta.length + metadatas.length := by
  rw [VectorIndex.add_texts] at h
  split at h
  · cases h
  · cases h
    cases hix : vi.index <;>
      simp [VectorIndex.ntotal, hix]

/-- C5: after any sequence of `add_texts` calls in which each call passes
equally many texts and metadatas, starting from a fresh index, the number of
stored vectors equals the length of the metadata list. -/
theorem runAdds_parallel {α : Type} (model : String → List ℚ)
    (calls : List (List String × List α))
    (hlen : ∀ c ∈ calls, c.1.length = c.2.length) :
    (runAdds (VectorIndex.mk model none []) calls).ntotal =
      (runAdds (VectorIndex.mk model none []) calls).meta.length := by
  have inv : ∀ (calls' : List (List String × List α)) (vi : VectorIndex α),
      (∀ c ∈ calls', c.1.length = c.2.length) →
      vi.ntotal = vi.meta.length →
      (runAdds vi calls').ntotal = (runAdds vi calls').meta.length := by
    intro calls'
    induction calls' with
    | nil => intro vi _ hvi; exact hvi
    | cons c rest ih =>
        intro vi hlen' hvi
        rw [runAdds]
        cases hadd : vi.add_texts c.1 c.2 with
        | error e => exact hvi
        | ok vi' =>
            have hc := add_texts_counts vi c.1 c.2 vi' hadd
            refine ih vi' (fun c' hc' => hlen' c' (List.mem_cons_of_mem c hc'))
              ?_
            rw [hc.1, hc.2, hvi, hlen' c (List.mem_cons_self c rest)]
  exact inv calls (VectorIndex.mk model none []) hlen rfl

/-- Witness for `runAdds_parallel`: two calls with matching lengths. -/
theorem runAdds_parallel_witness :
    (∀ c ∈ ([(["a"], [10]), (["b", "c"], [20, 30])] :
        List (List String × List Nat)),
      c.1.length = c.2.length) ∧
    (runAdds (VectorIndex.mk (fun _ => [1]) none ([] : List Nat))
        [(["a"], [10]), (["b", "c"], [20, 30])]).ntotal =
      (runAdds (VectorIndex.mk (fun _ => [1]) none ([] : List Nat))
        [(["a"], [10]), (["b", "c"], [20, 30])]).meta.length :=
  ⟨by decide, runAdds_parallel (fun _ => [1])
    [(["a"], [10]), (["b", "c"], [20, 30])] (by decide)⟩

/-- C6 counterexample: `add_texts` with one text and zero metadatas — a call
violating `len(texts) == len(metadatas)` — does not fail fast: it returns
normally, having appended 1 vector and 0 metadata entries. -/
theorem add_texts_no_length_check_counterexample :
    ((VectorIndex.mk (fun _ => [(1 : ℚ)]) none ([] : List Nat)).add_texts
        ["a"] []).toOption.map (fun vi => (vi.ntotal, vi.meta.length)) =
      some (1, 0) := rfl

/-- C6 (amended): `add_texts` performs no validation of
`len(texts) == len(metadatas)`: every call with a non-empty `texts` batch —
mismatched or not — returns normally, appending `len(texts)` vectors and
`len(metadatas)` metadata entries. -/
theorem add_texts_appends_unchecked {α : Type} (vi : VectorIndex α)
    (texts : List String) (metadatas : List α) (hne : texts ≠ []) :
    ∃ vi', vi.add_texts texts metadatas = .ok vi' ∧
      vi'.ntotal = vi.ntotal + texts.length ∧
      vi'.meta.length = vi.meta.length + metadatas.length := by
  rw [VectorIndex.add_texts]
  rw [if_neg (by simpa using hne)]
  refine ⟨_, rfl, ?_⟩
  cases hix : vi.index <;>
    simp [VectorIndex.ntotal, hix]

/-- Witness for `add_texts_appends_unchecked` at a concrete mismatched
call. -/
theorem add_texts_appends_unchecked_witness :
    (["a"] : List String) ≠ [] ∧
    ∃ vi', (VectorIndex.mk (fun _ => [(1 : ℚ)]) none ([] : List Nat)).add_texts
          ["a"] [] = .ok vi' ∧
      vi'.ntotal =
        (VectorIndex.mk (fun _ => [(1 : ℚ)]) none ([] : List Nat)).ntotal +
          (["a"] : List String).length ∧
      vi'.meta.length =
        (VectorIndex.mk (fun _ => [(1 : ℚ)]) none ([] : List Nat)).meta.length +
          ([] : List Nat).length :=
  ⟨by decide,
   add_texts_appends_unchecked
     (VectorIndex.mk (fun _ => [(1 : ℚ)]) none ([] : List Nat))
     ["a"] [] (by decide)⟩

/-- Inner product of two (equal-dimension) vectors, the similarity that
`IndexFlatIP` maximizes. -/
def ip (a b : List ℚ) : ℚ := (List.zipWith (· * ·) a b).sum

/-- Scores of the stored rows against a query, each paired with its row
index (`D` and `I` entries before selection), indices counted from `i`. -/
def scoreIdx (q : List ℚ) : List (List ℚ) → Nat → List (ℚ × Int)
  | [], _ => []
  | v :: vs, i => (ip q v, (i : Int)) :: scoreIdx q vs (i + 1)

/-- The faiss `IndexFlatIP.search` collaborator for one query: the `k`
highest-inner-product rows as `(score, index)` pairs in non-increasing score
order (ties keep the smaller row index, matching the exhaustive scan), padded
with sentinel index `-1` entries when fewer than `k` rows are stored. -/
def faissSearch (q : List ℚ) (vecs : List (List ℚ)) (k : Nat) :
    List (ℚ × Int) :=
  ((scoreIdx q vecs 0).mergeSort (fun a b => decide (b.1 ≤ a.1))).take k ++
    List.replicate (k - vecs.length) (0, -1)

/-- The result loop of `VectorIndex.search` (src/embedding.py lines 26–31):
skip sentinel `-1` indices, look each remaining index up in `self.meta`
(raising `IndexError` when the metadata list is too short, as Python list
indexing does), and pair the metadata with its score. -/
def collectResults {α : Type} (meta : List α) :
    List (ℚ × Int) → Except String (List (α × ℚ))
  | [] => .ok []
  | x :: rest =>
      if x.2 = -1 then collectResults meta rest
      else
        match meta[x.2.toNat]? with
        | none => .error "IndexError: list index out of range"
        | some m =>
            match collectResults meta rest with
            | .ok out => .ok ((m, x.1) :: out)
            | .error e => .error e

/-- Method `VectorIndex.search` (src/embedding.py lines 22–32).  When `self.index`
is still `None`, `self.index.search` raises `AttributeError`. -/
def VectorIndex.search {α : Type} (vi : VectorIndex α) (query : String)
    (k : Nat) : Except String (List (α × ℚ)) :=
  match vi.index with
  | none => .error "AttributeError: NoneType object has no attribute search"
  | some ix =>
      collectResults vi.meta (faissSearch (vi.model query) ix.vectors k)

/-- C7 counterexample: a fresh `VectorIndex` — an index state with no stored
entries — does not yield an empty result list on `search`: `self.index` is
`None` and the call raises `AttributeError`. -/
theorem search_fresh_index_counterexample :
    (VectorIndex.mk (fun _ => [(1 : ℚ)]) none ([] : List Nat)).search "q" 5 =
      .error "AttributeError: NoneType object has no attribute search" := rfl

/-- Reference value of the result loop on inputs where no metadata lookup
fails. -/
def collectOk {α : Type} (meta : List α) : List (ℚ × Int) → List (α × ℚ)
  | [] => []
  | x :: rest =>
      if x.2 = -1 then collectOk meta rest
      else
        match meta[x.2.toNat]? with
        | none => collectOk meta rest
        | some m => (m, x.1) :: collectOk meta rest

/-- An entry the result loop handles without raising: the sentinel, or a real
row index within the metadata list. -/
def EntryOk {α : Type} (meta : List α) (x : ℚ × Int) : Prop :=
  x.2 = -1 ∨ ∃ j : Nat, x.2 = (j : Int) ∧ j < meta.length

/-- A strict entry: a real row index within the metadata list (never the
sentinel). -/
def StrictOk {α : Type} (meta : List α) (x : ℚ × Int) : Prop :=
  ∃ j : Nat, x.2 = (j : Int) ∧ j < meta.length

theorem collectResults_eq_ok {α : Type} (meta : List α) :
    ∀ l : List (ℚ × Int), (∀ x ∈ l, EntryOk meta x) →
      collectResults meta l = .ok (collectOk meta l)
  | [], _ => rfl
  | x :: rest, h => by
      have hrest := collectResults_eq_ok meta rest
        (fun y hy => h y (List.mem_cons_of_mem x hy))
      by_cases hx : x.2 = -1
      · rw [collectResults, collectOk, if_pos hx, if_pos hx, hrest]
      · rcases h x (List.mem_cons_self x rest) with h1 | ⟨j, hj, hjlt⟩
        · exact absurd h1 hx
        · have hm : meta[x.2.toNat]? = some meta[j] := by
            rw [hj, Int.toNat_ofNat]
            exact List.getElem?_eq_getElem hjlt
          rw [collectResults, collectOk, if_neg hx, if_neg hx, hm, hrest]

theorem collectOk_append {α : Type} (meta : List α) :
    ∀ l₁ l₂ : List (ℚ × Int),
      collectOk meta (l₁ ++ l₂) = collectOk meta l₁ ++ collectOk meta l₂
  | [], l₂ => rfl
  | x :: t, l₂ => by
      by_cases hx : x.2 = -1
      · simp [collectOk, hx, collectOk_append meta t l₂]
      · cases hm : meta[x.2.toNat]? <;>
          simp [collectOk, hx, hm, collectOk_append meta t l₂]

theorem collectOk_replicate_sentinel {α : Type} (meta : List α) :
    ∀ m : Nat, collectOk meta (List.replicate m ((0 : ℚ), (-1 : Int))) = []
  | 0 => rfl
  | m + 1 => by
      simp [List.replicate_succ, collectOk,
        collectOk_replicate_sentinel meta m]

theorem collectOk_scores {α : Type} (meta : List α) :
    ∀ l : List (ℚ × Int), (∀ x ∈ l, StrictOk meta x) →
      (collectOk meta l).map Prod.snd = l.map Prod.fst
  | [], _ => rfl
  | x :: t, h => by
      obtain ⟨j, hj, hjlt⟩ := h x (List.mem_cons_self x t)
      have hx : ¬ x.2 = -1 := by rw [hj]; omega
      have hm : meta[x.2.toNat]? = some meta[j] := by
        rw [hj, Int.toNat_ofNat]
        exact List.getElem?_eq_getElem hjlt
      rw [collectOk, if_neg hx, hm]
      simp [collectOk_scores meta t (fun y hy => h y (List.mem_cons_of_mem x hy))]

theorem collectOk_eq_filterMap {α : Type} (meta : List α) :
    ∀ l : List (ℚ × Int),
      collectOk meta l = l.filterMap (fun x =>
        if x.2 = -1 then none
        else (meta[x.2.toNat]?).map (fun m => (m, x.1)))
  | [] => rfl
  | x :: t => by
      by_cases hx : x.2 = -1
      · simp [collectOk, hx, List.filterMap_cons,
          collectOk_eq_filterMap meta t]
      · cases hm : meta[x.2.toNat]? <;>
          simp [collectOk, hx, hm, List.filterMap_cons,
            collectOk_eq_filterMap meta t]

theorem scoreIdx_length (q : List ℚ) :
    ∀ (vecs : List (List ℚ)) (i : Nat),
      (scoreIdx q vecs i).length = vecs.length
  | [], _ => rfl
  | v :: vs, i => by simp [scoreIdx, scoreIdx_length q vs (i + 1)]

theorem scoreIdx_strict {α : Type} (meta : List α) (q : List ℚ) :
    ∀ (vecs : List (List ℚ)) (i : Nat), i + vecs.length ≤ meta.length →
      ∀ x ∈ scoreIdx q vecs i, StrictOk meta x
  | [], _, _ => by intro x hx; cases hx
  | v :: vs, i, hle => by
      intro x hx
      rcases List.mem_cons.1 hx with rfl | hx
      · exact ⟨i, rfl, by simp at hle; omega⟩
      · exact scoreIdx_strict meta q vs (i + 1)
          (by simp at hle ⊢; omega) x hx

theorem collectOk_scoreIdx {α : Type} (meta : List α) (q : List ℚ) :
    ∀ (vecs : List (List ℚ)) (i : Nat), i + vecs.length ≤ meta.length →
      collectOk meta (scoreIdx q vecs i) =
        ((meta.drop i).take vecs.length).zip (vecs.map (ip q))
  | [], i, _ => by simp [scoreIdx, collectOk]
  | v :: vs, i, hle => by
      have hi : i < meta.length := by simp at hle; omega
      have hx : ¬ (((ip q v, (i : Int)) : ℚ × Int).2 = -1) := by
        simp only []
        omega
      have hm : meta[(((ip q v, (i : Int)) : ℚ × Int).2).toNat]? =
          some meta[i] := by
        simp only [Int.toNat_ofNat]
        exact List.getElem?_eq_getElem hi
      rw [scoreIdx, collectOk, if_neg hx, hm,
        collectOk_scoreIdx meta q vs (i + 1) (by simp at hle ⊢; omega),
        List.drop_eq_getElem_cons hi]
      simp only [List.length_cons, List.take_succ_cons, List.map_cons,
        List.zip_cons_cons]

/-- C7 (amended): on a `VectorIndex` whose store has been initialized and
whose metadata list is at least as long as the vector store (the parallelism
invariant every well-formed usage maintains), `search(q, k)` returns
normally, its results are in non-increasing similarity score order with
length `min k n` (so at most `k`, all `n` available entries when `k ≥ n`,
and `[]` on an initialized empty store), sentinel `-1` positions are
excluded, and when `k ≥ n` the returned metadata is exactly the stored
metadata of the `n` entries.  (On a fresh index whose store was never
initialized, `search` instead raises `AttributeError` — see the
counterexample.) -/
theorem search_spec {α : Type} (vi : VectorIndex α) (ix : FaissIndex)
    (q : String) (k : Nat) (hix : vi.index = some ix)
    (hlen : ix.vectors.length ≤ vi.meta.length) :
    ∃ out, vi.search q k = .ok out ∧
      out.length = min k ix.vectors.length ∧
      (out.map Prod.snd).Pairwise (fun a b : ℚ => b ≤ a) ∧
      (ix.vectors.length ≤ k →
        (out.map Prod.fst).Perm (vi.meta.take ix.vectors.length)) := by
  have hstrict_pairs : ∀ x ∈ scoreIdx (vi.model q) ix.vectors 0,
      StrictOk vi.meta x :=
    scoreIdx_strict vi.meta (vi.model q) ix.vectors 0 (by omega)
  have hperm : (List.mergeSort (scoreIdx (vi.model q) ix.vectors 0)
        (fun a b => decide (b.1 ≤ a.1))).Perm
      (scoreIdx (vi.model q) ix.vectors 0) :=
    List.mergeSort_perm _ _
  have hstrict_sorted : ∀ x ∈ List.mergeSort (scoreIdx (vi.model q) ix.vectors 0)
        (fun a b => decide (b.1 ≤ a.1)), StrictOk vi.meta x :=
    fun x hx => hstrict_pairs x (hperm.mem_iff.1 hx)
  have hstrict_take : ∀ x ∈ (List.mergeSort (scoreIdx (vi.model q) ix.vectors 0)
        (fun a b => decide (b.1 ≤ a.1))).take k, StrictOk vi.meta x :=
    fun x hx => hstrict_sorted x (List.mem_of_mem_take hx)
  have hentry : ∀ x ∈ faissSearch (vi.model q) ix.vectors k,
      EntryOk vi.meta x := by
    intro x hx
    rcases List.mem_append.1 hx with hx | hx
    · exact Or.inr (hstrict_take x hx)
    · rw [List.eq_of_mem_replicate hx]
      exact Or.inl rfl
  have hout : collectOk vi.meta (faissSearch (vi.model q) ix.vectors k) =
      collectOk vi.meta ((List.mergeSort (scoreIdx (vi.model q) ix.vectors 0)
        (fun a b => decide (b.1 ≤ a.1))).take k) := by
    rw [faissSearch, collectOk_append, collectOk_replicate_sentinel,
      List.append_nil]
  have hsearch : vi.search q k =
      .ok (collectOk vi.meta ((List.mergeSort (scoreIdx (vi.model q) ix.vectors 0)
        (fun a b => decide (b.1 ≤ a.1))).take k)) := by
    rw [← hout]
    simp only [VectorIndex.search, hix]
    exact collectResults_eq_ok vi.meta _ hentry
  have hscores : (collectOk vi.meta
        ((List.mergeSort (scoreIdx (vi.model q) ix.vectors 0)
          (fun a b => decide (b.1 ≤ a.1))).take k)).map Prod.snd =
      ((List.mergeSort (scoreIdx (vi.model q) ix.vectors 0)
        (fun a b => decide (b.1 ≤ a.1))).take k).map Prod.fst :=
    collectOk_scores vi.meta _ hstrict_take
  refine ⟨_, hsearch, ?_, ?_, ?_⟩
  · have h1 := congrArg List.length hscores
    simp only [List.length_map] at h1
    rw [h1, List.length_take, List.length_mergeSort,
      scoreIdx_length (vi.model q) ix.vectors 0]
  · rw [hscores]
    have hsorted : (List.mergeSort (scoreIdx (vi.model q) ix.vectors 0)
        (fun a b => decide (b.1 ≤ a.1))).Pairwise
        (fun a b : ℚ × Int => decide (b.1 ≤ a.1)) :=
      List.sorted_mergeSort
        (fun a b c hab hbc => by
          simp only [decide_eq_true_eq] at *
          exact le_trans hbc hab)
        (fun a b => by
          simp only [Bool.or_eq_true, decide_eq_true_eq]
          exact le_total b.1 a.1)
        (scoreIdx (vi.model q) ix.vectors 0)
    have htake := hsorted.sublist (List.take_sublist k _)
    rw [List.pairwise_map]
    exact htake.imp (fun hab => by simpa using hab)
  · intro hk
    have htake_all : (List.mergeSort (scoreIdx (vi.model q) ix.vectors 0)
        (fun a b => decide (b.1 ≤ a.1))).take k =
        List.mergeSort (scoreIdx (vi.model q) ix.vectors 0)
          (fun a b => decide (b.1 ≤ a.1)) :=
      List.take_of_length_le (by
        rw [List.length_mergeSort, scoreIdx_length]
        exact hk)
    rw [htake_all, collectOk_eq_filterMap]
    have hpermc := hperm.filterMap (fun x : ℚ × Int =>
      if x.2 = -1 then none
      else (vi.meta[x.2.toNat]?).map (fun m => (m, x.1)))
    have hzip : List.filterMap (fun x : ℚ × Int =>
        if x.2 = -1 then none
        else (vi.meta[x.2.toNat]?).map (fun m => (m, x.1)))
        (scoreIdx (vi.model q) ix.vectors 0) =
        (vi.meta.take ix.vectors.length).zip
          (ix.vectors.map (ip (vi.model q))) := by
      rw [← collectOk_eq_filterMap]
      have h0 := collectOk_scoreIdx vi.meta (vi.model q) ix.vectors 0
        (by omega)
      rwa [List.drop_zero] at h0
    have hlen2 : (vi.meta.take ix.vectors.length).length ≤
        (ix.vectors.map (ip (vi.model q))).length := by
      rw [List.length_take, List.length_map]
      omega
    have hfinal := hpermc.map Prod.fst
    rw [hzip, List.map_fst_zip _ _ hlen2] at hfinal
    exact hfinal

/-- Witness for `search_spec`: a one-entry index searched with `k = 5`. -/
theorem search_spec_witness :
    (VectorIndex.mk (fun _ => [(1 : ℚ)]) (some ⟨1, [[1]]⟩) [(42 : Nat)]).index =
        some ⟨1, [[1]]⟩ ∧
    (FaissIndex.mk 1 [[1]]).vectors.length ≤
      (VectorIndex.mk (fun _ => [(1 : ℚ)]) (some ⟨1, [[1]]⟩)
        [(42 : Nat)]).meta.length ∧
    ∃ out, (VectorIndex.mk (fun _ => [(1 : ℚ)]) (some ⟨1, [[1]]⟩)
          [(42 : Nat)]).search "q" 5 = .ok out ∧
      out.length = min 5 (FaissIndex.mk 1 [[1]]).vectors.length ∧
      (out.map Prod.snd).Pairwise (fun a b : ℚ => b ≤ a) ∧
      ((FaissIndex.mk 1 [[1]]).vectors.length ≤ 5 →
        (out.map Prod.fst).Perm
          ((VectorIndex.mk (fun _ => [(1 : ℚ)]) (some ⟨1, [[1]]⟩)
            [(42 : Nat)]).meta.take (FaissIndex.mk 1 [[1]]).vectors.length)) :=
  ⟨rfl, by decide,
   search_spec (VectorIndex.mk (fun _ => [(1 : ℚ)]) (some ⟨1, [[1]]⟩)
     [(42 : Nat)]) ⟨1, [[1]]⟩ "q" 5 rfl (by decide)⟩

/-- Method `VectorIndex.save` (src/embedding.py lines 34–37): write the faiss index
and dump the metadata list as JSON — two companion artifacts, modelled as the
data they serialize.  With `self.index` still `None`,
`faiss.write_index(None, path)` raises. -/
def VectorIndex.save {α : Type} (vi : VectorIndex α) :
    Except String (FaissIndex × List α) :=
  match vi.index with
  | none => .error "TypeError: write_index on None"
  | some ix => .ok (ix, vi.meta)

/-- Method `VectorIndex.load` (src/embedding.py lines 39–42):
`self.index = faiss.read_index(path_idx)` then `self.meta = json.load(f)`.
Each companion file is `some content` when present and readable, `none`
otherwise.  The result is the raised exception (or unit) paired with the
object state after the call: Python mutates `self` field by field, so a
failure reading the metadata file leaves the first assignment in place. -/
def VectorIndex.load {α : Type} (vi : VectorIndex α)
    (vecFile : Option FaissIndex) (metaFile : Option (List α)) :
    Except String Unit × VectorIndex α :=
  match vecFile with
  | none =>
      (.error "RuntimeError: faiss read_index could not open file", vi)
  | some ix =>
      match metaFile with
      | none =>
          (.error "FileNotFoundError: metadata file missing",
           { vi with index := some ix })
      | some m => (.ok (), { vi with index := some ix, meta := m })

/-- C8: saving a populated index and loading the two artifacts into a fresh
`VectorIndex` (constructed with the same embedding model) reproduces
identical search results for every query and every `k`. -/
theorem save_load_roundtrip {α : Type} (vi : VectorIndex α) (ix : FaissIndex)
    (hix : vi.index = some ix) :
    ∃ files : FaissIndex × List α, vi.save = .ok files ∧
      ∀ (query : String) (k : Nat),
        ((VectorIndex.mk vi.model none []).load (some files.1)
            (some files.2)).2.search query k = vi.search query k := by
  refine ⟨(ix, vi.meta), ?_, ?_⟩
  · simp only [VectorIndex.save, hix]
  · intro query k
    simp only [VectorIndex.load, VectorIndex.search, hix]

/-- Witness for `save_load_roundtrip` on a concrete one-entry index. -/
theorem save_load_roundtrip_witness :
    (VectorIndex.mk (fun _ => [(1 : ℚ)]) (some ⟨1, [[1]]⟩)
        [(42 : Nat)]).index = some ⟨1, [[1]]⟩ ∧
    ∃ files : FaissIndex × List Nat,
      (VectorIndex.mk (fun _ => [(1 : ℚ)]) (some ⟨1, [[1]]⟩)
        [(42 : Nat)]).save = .ok files ∧
      ∀ (query : String) (k : Nat),
        ((VectorIndex.mk (fun _ => [(1 : ℚ)]) none []).load (some files.1)
            (some files.2)).2.search query k =
          (VectorIndex.mk (fun _ => [(1 : ℚ)]) (some ⟨1, [[1]]⟩)
            [(42 : Nat)]).search query k :=
  ⟨rfl,
   save_load_roundtrip
     (VectorIndex.mk (fun _ => [(1 : ℚ)]) (some ⟨1, [[1]]⟩) [(42 : Nat)])
     ⟨1, [[1]]⟩ rfl⟩

/-- C9 counterexample: loading with the vector file readable but the metadata
file missing raises, yet the in-memory state is not left unchanged: the
vector store was already replaced (1 stored vector before the call, 2 after)
while the metadata list keeps its old value — a partial state. -/
theorem load_leaves_replaced_index_counterexample :
    ((VectorIndex.mk (fun _ => [(1 : ℚ)]) (some ⟨1, [[1]]⟩) [(0 : Nat)]).load
        (some ⟨1, [[2], [3]]⟩) none).1 =
      .error "FileNotFoundError: metadata file missing" ∧
    (VectorIndex.mk (fun _ => [(1 : ℚ)]) (some ⟨1, [[1]]⟩)
      [(0 : Nat)]).ntotal = 1 ∧
    ((VectorIndex.mk (fun _ => [(1 : ℚ)]) (some ⟨1, [[1]]⟩) [(0 : Nat)]).load
        (some ⟨1, [[2], [3]]⟩) none).2.ntotal = 2 ∧
    ((VectorIndex.mk (fun _ => [(1 : ℚ)]) (some ⟨1, [[1]]⟩) [(0 : Nat)]).load
        (some ⟨1, [[2], [3]]⟩) none).2.meta = [0] :=
  ⟨rfl, rfl, rfl, rfl⟩

/-- C9 (amended): `load` fails fast by raising when either companion file is
missing or unreadable, but only the missing-vector-file case leaves the
in-memory state unchanged: when the vector file reads successfully and the
metadata file then fails, the raise happens after `self.index` was replaced,
leaving a partial state — the new vector store paired with the old metadata
list. -/
theorem load_fail_fast {α : Type} (vi : VectorIndex α) (ix : FaissIndex) :
    (∀ metaFile : Option (List α),
      (vi.load none metaFile).1 =
        .error "RuntimeError: faiss read_index could not open file" ∧
      (vi.load none metaFile).2 = vi) ∧
    ((vi.load (some ix) none).1 =
        .error "FileNotFoundError: metadata file missing" ∧
      (vi.load (some ix) none).2 = { vi with index := some ix }) :=
  ⟨fun _ => ⟨rfl, rfl⟩, rfl, rfl⟩

end DocAnalyzer
